import Mathlib

/-
Verification of the deterministic trip-to-driver assignment engine
(`assignTripsToDrivers` and its helpers) against its natural-language
specification.

The embedding mirrors the TypeScript source:
  * JavaScript `Date` values are modelled as nonnegative milliseconds since
    the Unix epoch (`Nat`); `setUTCHours(h, m, 0, 0)` replaces the
    time-of-day component within the UTC day, i.e. truncation to the day
    boundary followed by adding the requested offset.
  * `parseInt(s, 10)` is modelled faithfully: leading whitespace is skipped,
    an optional sign is read, then the maximal leading run of decimal digits
    is converted; the result is "NaN" (here `none`) only when that run is
    empty.  Trailing garbage is ignored, exactly as in JavaScript.
  * `time.split(":")` is modelled by a structural split of the character
    list on ':'.
  * `Array.prototype.sort` with a consistent comparator is a stable sort;
    it is modelled by a stable insertion sort.
  * `String.prototype.localeCompare` is modelled as code-point lexicographic
    comparison (for the plain ASCII names relevant here, the default locale
    collation and code-point order agree).
  * `Math.abs(ts1 - ts2) / 3600000 < 3` on IEEE doubles is equivalent to the
    integer comparison `|ts1 - ts2| < 10800000` (both operands are integers
    below 2^53, the boundary value 10800000/3600000 = 3 is exactly
    representable, and correct rounding cannot move a quotient across the
    representable value 3), so the conflict test is embedded as an exact
    integer comparison.
  * The `Map` objects keyed by driver id are modelled as functions out of
    `String`; `driverTimestamps` keeps an `Option` to distinguish absent
    keys (`undefined`, falsy) from present ones (an array, always truthy,
    even when empty).
-/

namespace TripSched

/-- Minimum hours between trips for the same driver (source constant). -/
def MIN_HOURS_BETWEEN_TRIPS : Nat := 3

/-- Night shift cutoff hour, 24-hour format (source constant). -/
def NIGHT_SHIFT_CUTOFF_HOUR : Int := 5

/-- Input trip record. -/
structure Trip where
  id : String
  tripId : String
  tripDate : Nat
  dayOfWeek : Nat
  plannedArrivalTime : Option String
deriving DecidableEq

/-- One availability entry of a driver. -/
structure AvailabilityDay where
  dayOfWeek : Nat
deriving DecidableEq

/-- Input driver record.  The source reads `driver.priority ?? 2`, so the
priority is modelled as optional with the `?? 2` fallback made explicit at
each use site, exactly as in the source. -/
structure Driver where
  id : String
  name : String
  priority : Option Int
  availability : List AvailabilityDay
deriving DecidableEq

/-- Output assignment record. -/
structure Assignment where
  tripId : String
  driverId : String
  reasoning : String
deriving DecidableEq

/-- Output distribution entry. -/
structure DriverDistribution where
  driverId : String
  driverName : String
  tripCount : Nat
deriving DecidableEq

/-- Aggregate counters of the result. -/
structure ResultStats where
  totalTrips : Nat
  assignedCount : Nat
  unassignedCount : Nat
deriving DecidableEq

/-- Full result of the engine. -/
structure AssignmentResult where
  assignments : List Assignment
  warnings : List String
  summary : String
  distribution : List DriverDistribution
  stats : ResultStats
deriving DecidableEq

/-- Already-committed assignment used to pre-seed conflict state. -/
structure ExistingAssignment where
  driverId : String
  tripDate : Nat
  plannedArrivalTime : Option String
deriving DecidableEq

/-- Day names, index 0 = Sunday (source constant `DAY_NAMES`). -/
def DAY_NAMES : List String :=
  ["Sunday", "Monday", "Tuesday", "Wednesday", "Thursday", "Friday", "Saturday"]

/-- Array indexing `DAY_NAMES[i]`; an out-of-range JavaScript index yields
`undefined`, which prints as "undefined" inside a template literal. -/
def dayName (i : Nat) : String := DAY_NAMES.getD i "undefined"

/-- Numeric value of a decimal digit character. -/
def digitVal (c : Char) : Nat := c.toNat - 48

/-- Accumulating helper of `parseDigits`. -/
def parseDigitsAux : List Char → Nat → Nat
  | c :: cs, acc => if c.isDigit then parseDigitsAux cs (acc * 10 + digitVal c) else acc
  | [], acc => acc

/-- Value of the maximal leading run of decimal digits; `none` when the run
is empty (JavaScript `parseInt` returns NaN in that case). -/
def parseDigits : List Char → Option Nat
  | c :: cs => if c.isDigit then some (parseDigitsAux cs (digitVal c)) else none
  | [] => none

/-- Model of JavaScript `parseInt(s, 10)`: skip leading whitespace, read an
optional sign, then the maximal run of decimal digits; trailing characters
are ignored; NaN is modelled as `none`. -/
def jsParseInt (s : String) : Option Int :=
  let cs := s.data.dropWhile Char.isWhitespace
  match cs with
  | [] => none
  | c :: rest =>
    if c = '+' then (parseDigits rest).map Int.ofNat
    else if c = '-' then (parseDigits rest).map (fun n => -(n : Int))
    else (parseDigits cs).map Int.ofNat

/-- Helper of `splitChar`: structural split of a character list at a
separator character, mirroring JavaScript `String.prototype.split` with a
single-character separator. -/
def splitCharAux (sep : Char) : List Char → List Char → List (List Char)
  | [], acc => [acc.reverse]
  | c :: cs, acc =>
    if c = sep then acc.reverse :: splitCharAux sep cs [] else splitCharAux sep cs (c :: acc)

/-- Model of `s.split(sep)` for a one-character separator. -/
def splitChar (sep : Char) (s : String) : List (List Char) :=
  splitCharAux sep s.data []

/-- Parsed "HH:MM" value. -/
structure ParsedTime where
  hours : Int
  minutes : Int
deriving DecidableEq

/-- Model of the source `parseTime`: split on ":", require exactly two
parts, run `parseInt` on each, validate the ranges.  The initial
`if (!time) return null` also fires on the empty string (falsy). -/
def parseTime : Option String → Option ParsedTime
  | none => none
  | some t =>
    if t = "" then none
    else
      match splitChar ':' t with
      | [p0, p1] =>
        match jsParseInt (String.mk p0), jsParseInt (String.mk p1) with
        | some hours, some minutes =>
          if hours < 0 || hours > 23 then none
          else if minutes < 0 || minutes > 59 then none
          else some { hours, minutes }
        | _, _ => none
      | _ => none

/-- Milliseconds per day. -/
def msPerDay : Nat := 86400000

/-- Model of the source `getTimestamp`: copy the date and `setUTCHours` to
the parsed time, or to midnight when the time is absent or invalid.  On the
nonnegative millisecond model, `setUTCHours(h, m, 0, 0)` truncates to the
UTC day boundary and adds the requested offset. -/
def getTimestamp (date : Nat) (time : Option String) : Nat :=
  match parseTime time with
  | some p => date / msPerDay * msPerDay + p.hours.toNat * 3600000 + p.minutes.toNat * 60000
  | none => date / msPerDay * msPerDay

/-- Model of the source `timestampsTooClose`; the floating-point comparison
`|ts1 - ts2| / 3600000 < MIN_HOURS_BETWEEN_TRIPS` is exactly the integer
comparison below (see the header comment). -/
def timestampsTooClose (ts1 ts2 : Nat) : Bool :=
  ((ts1 : Int) - (ts2 : Int)).natAbs < MIN_HOURS_BETWEEN_TRIPS * 3600000

/-- Model of the source `getEffectiveDayOfWeek`: trips parsing to a time
strictly before the cutoff hour are attributed to the previous day, wrapping
Sunday (0) to Saturday (6). -/
def getEffectiveDayOfWeek (dayOfWeek : Nat) (time : Option String) : Nat :=
  match parseTime time with
  | none => dayOfWeek
  | some parsed =>
    if parsed.hours ≥ NIGHT_SHIFT_CUTOFF_HOUR then dayOfWeek
    else if dayOfWeek = 0 then 6 else dayOfWeek - 1

/-- Structural lexicographic comparison of character lists (code-point
order), used to model `localeCompare` on the ASCII names that occur here. -/
def charListLt : List Char → List Char → Bool
  | [], [] => false
  | [], _ :: _ => true
  | _ :: _, [] => false
  | a :: as, b :: bs => if a < b then true else if b < a then false else charListLt as bs

/-- Model of `a.localeCompare(b)`: only the sign is ever inspected by the
source, so the result is normalised to -1/0/1. -/
def localeCompare (a b : String) : Int :=
  if charListLt a.data b.data then -1 else if charListLt b.data a.data then 1 else 0

/-- Civil date (year, month, day) of a nonnegative number of days since
1970-01-01, via the standard era decomposition; models the date component
of `Date.prototype.toISOString`. -/
def civilFromDays (z : Nat) : Nat × Nat × Nat :=
  let days := z + 719468
  let era := days / 146097
  let doe := days % 146097
  let yoe := (doe - doe / 1460 + doe / 36524 - doe / 146096) / 365
  let y := yoe + era * 400
  let doy := doe - (365 * yoe + yoe / 4 - yoe / 100)
  let mp := (5 * doy + 2) / 153
  let d := doy - (153 * mp + 2) / 5 + 1
  let m := if mp < 10 then mp + 3 else mp - 9
  (if m ≤ 2 then y + 1 else y, m, d)

/-- Two-digit zero padding. -/
def pad2 (n : Nat) : String := if n < 10 then "0" ++ toString n else toString n

/-- Model of `date.toISOString().split("T")[0]`. -/
def isoDateString (ms : Nat) : String :=
  match civilFromDays (ms / msPerDay) with
  | (y, m, d) => toString y ++ "-" ++ pad2 m ++ "-" ++ pad2 d

/-- Stable insertion of `x` into a sorted list: `x` is placed before the
first element that is not strictly smaller than it. -/
def insertSorted (lt : α → α → Bool) (x : α) : List α → List α
  | [] => [x]
  | y :: ys => if lt y x then y :: insertSorted lt x ys else x :: y :: ys

/-- Stable sort by a strict comparator; for a consistent JavaScript
comparator this produces the same permutation as `Array.prototype.sort`
(which is required to be stable). -/
def stableSort (lt : α → α → Bool) : List α → List α
  | [] => []
  | x :: xs => insertSorted lt x (stableSort lt xs)

/-- Strict "a sorts before b" order of the per-day driver sort: by priority
(`?? 2`), then by name (`localeCompare`). -/
def driverSortLt (a b : Driver) : Bool :=
  let pa := a.priority.getD 2
  let pb := b.priority.getD 2
  if pa ≠ pb then decide (pa < pb) else decide (localeCompare a.name b.name < 0)

/-- The sorted list of drivers available on a given day (source: the value
stored in `driversByDay` for keys 0..6). -/
def driversAvailableOn (drivers : List Driver) (day : Nat) : List Driver :=
  stableSort driverSortLt (drivers.filter (fun d => d.availability.any (fun a => a.dayOfWeek == day)))

/-- Model of `driversByDay.get(day) || []`: the map is populated exactly for
the keys 0..6, every other lookup yields `undefined`, hence `[]`. -/
def driversByDay (drivers : List Driver) (day : Nat) : List Driver :=
  if day < 7 then driversAvailableOn drivers day else []

/-- Mutable per-run state of the engine: the two maps plus the two output
accumulators.  `tstamps` keeps `Option` to model absent `Map` keys. -/
structure LoopState where
  assignments : List Assignment
  warnings : List String
  load : String → Nat
  tstamps : String → Option (List Nat)

/-- Model of `driverTimestamps.get(id)!.push(ts)` (and of the push in the
seeding loop): append at the given key. -/
def pushTimestamp (m : String → Option (List Nat)) (id : String) (ts : Nat) :
    String → Option (List Nat) :=
  fun k => if k = id then some ((m id).getD [] ++ [ts]) else m k

/-- Model of `driverLoad.set(id, (driverLoad.get(id) || 0) + 1)`. -/
def bumpLoad (load : String → Nat) (id : String) : String → Nat :=
  fun k => if k = id then load id + 1 else load k

/-- State after the two initialisation loops: all output accumulators empty,
zero load for every driver, and an empty timestamp array exactly for the
ids of the input drivers. -/
def initState (drivers : List Driver) : LoopState :=
  { assignments := []
    warnings := []
    load := fun _ => 0
    tstamps := fun id => if (drivers.map Driver.id).contains id then some [] else none }

/-- One step of the seeding loop over `existingAssignments`: entries whose
driver id has no entry in `driverTimestamps` (i.e. is not an input driver)
are skipped entirely. -/
def seedStep (st : LoopState) (ea : ExistingAssignment) : LoopState :=
  match st.tstamps ea.driverId with
  | some _ =>
    { st with
      tstamps := pushTimestamp st.tstamps ea.driverId (getTimestamp ea.tripDate ea.plannedArrivalTime)
      load := bumpLoad st.load ea.driverId }
  | none => st

/-- State after seeding the existing assignments. -/
def seededState (drivers : List Driver) (eas : List ExistingAssignment) : LoopState :=
  eas.foldl seedStep (initState drivers)

/-- Timestamp of a trip, as used for conflict detection. -/
def tripTimestampOf (t : Trip) : Nat := getTimestamp t.tripDate t.plannedArrivalTime

/-- Effective day of a trip, as used for availability matching. -/
def effectiveDayOf (t : Trip) : Nat := getEffectiveDayOfWeek t.dayOfWeek t.plannedArrivalTime

/-- Model of the conflict check `assignedTimestamps.some(...)`. -/
def hasConflict (tss : List Nat) (ts : Nat) : Bool :=
  tss.any (fun assignedTs => timestampsTooClose assignedTs ts)

/-- The filtered candidate list for one trip (source: `availableDrivers`). -/
def availableDriversFor (dbd : Nat → List Driver) (st : LoopState) (t : Trip) : List Driver :=
  (dbd (effectiveDayOf t)).filter
    (fun driver => !(hasConflict ((st.tstamps driver.id).getD []) (tripTimestampOf t)))

/-- Body of the `reduce` comparison: keep `bestDriver` unless `driver` is
strictly better by priority, then load, then name. -/
def pickBetter (load : String → Nat) (bestDriver driver : Driver) : Driver :=
  let bestPriority := bestDriver.priority.getD 2
  let currentPriority := driver.priority.getD 2
  let bestLoad := load bestDriver.id
  let currentLoad := load driver.id
  if currentPriority < bestPriority then driver
  else if currentPriority > bestPriority then bestDriver
  else if currentLoad < bestLoad then driver
  else if currentLoad > bestLoad then bestDriver
  else if localeCompare driver.name bestDriver.name < 0 then driver else bestDriver

/-- Model of `availableDrivers.reduce(...)` on the nonempty list
`d0 :: rest`. -/
def selectDriver (load : String → Nat) (d0 : Driver) (rest : List Driver) : Driver :=
  rest.foldl (pickBetter load) d0

/-- Priority label used in the reasoning string (`=== 1`, `=== 3`). -/
def priorityLabel (p : Option Int) : String :=
  if p = some 1 then "high" else if p = some 3 then "low" else "med"

/-- Day label of the reasoning string, with night-shift annotation. -/
def dayLabelOf (t : Trip) : String :=
  let eff := effectiveDayOf t
  let effName := dayName eff
  let calName := dayName t.dayOfWeek
  if eff ≠ t.dayOfWeek then s!"{effName} night" else calName

/-- The assignment record pushed for a trip and its selected driver. -/
def mkAssignment (t : Trip) (d : Driver) : Assignment :=
  let dl := dayLabelOf t
  let nm := d.name
  let pl := priorityLabel d.priority
  { tripId := t.id
    driverId := d.id
    reasoning := s!"{dl} - {nm} ({pl} priority)" }

/-- Warning emitted when no driver works the trip's effective day. -/
def noDriverWarning (t : Trip) : String :=
  let eff := effectiveDayOf t
  let effName := dayName eff
  let calName := dayName t.dayOfWeek
  let dayInfo := if eff ≠ t.dayOfWeek then s!"{effName} (night shift into {calName})" else effName
  let tid := t.tripId
  s!"Trip {tid}: No driver available on {dayInfo}"

/-- Warning emitted when every candidate driver is time-conflicted. -/
def conflictWarning (t : Trip) : String :=
  let timeStr :=
    match t.plannedArrivalTime with
    | some s => if s = "" then "unknown time" else s
    | none => "unknown time"
  let dateStr := isoDateString t.tripDate
  let tid := t.tripId
  s!"Trip {tid}: All drivers have conflicting trips near {timeStr} on {dateStr}"

/-- Body of the main `for (const trip of trips)` loop. -/
def processTrip (dbd : Nat → List Driver) (st : LoopState) (t : Trip) : LoopState :=
  match availableDriversFor dbd st t with
  | [] =>
    if (dbd (effectiveDayOf t)).length = 0 then
      { st with warnings := st.warnings ++ [noDriverWarning t] }
    else
      { st with warnings := st.warnings ++ [conflictWarning t] }
  | d0 :: rest =>
    let sel := selectDriver st.load d0 rest
    { assignments := st.assignments ++ [mkAssignment t sel]
      warnings := st.warnings
      load := bumpLoad st.load sel.id
      tstamps := pushTimestamp st.tstamps sel.id (tripTimestampOf t) }

/-- Final loop state of a run on the main path. -/
def runEngine (trips : List Trip) (drivers : List Driver)
    (eas : List ExistingAssignment) : LoopState :=
  trips.foldl (processTrip (driversByDay drivers)) (seededState drivers eas)

/-- Strict order of the distribution sort (`b.tripCount - a.tripCount`):
descending by trip count. -/
def distributionLt (a b : DriverDistribution) : Bool :=
  decide (b.tripCount < a.tripCount)

/-- Model of the source `assignTripsToDrivers`. -/
def assignTripsToDrivers (trips : List Trip) (drivers : List Driver)
    (existingAssignments : List ExistingAssignment) : AssignmentResult :=
  if trips.length = 0 then
    { assignments := []
      warnings := []
      summary := "No trips to assign"
      distribution := []
      stats := { totalTrips := 0, assignedCount := 0, unassignedCount := 0 } }
  else if drivers.length = 0 then
    { assignments := []
      warnings := ["No active drivers available"]
      summary := "Assignment failed: No drivers"
      distribution := []
      stats := { totalTrips := trips.length, assignedCount := 0, unassignedCount := trips.length } }
  else
    let final := runEngine trips drivers existingAssignments
    let distribution := stableSort distributionLt
      ((drivers.map (fun d =>
          { driverId := d.id, driverName := d.name, tripCount := final.load d.id :
            DriverDistribution })).filter
        (fun d => decide (0 < d.tripCount)))
    let assignedCount := final.assignments.length
    let totalTrips := trips.length
    let unassignedCount := totalTrips - assignedCount
    let summary := s!"Assigned {assignedCount} of {totalTrips} trips"
    { assignments := final.assignments
      warnings := final.warnings
      summary := summary
      distribution := distribution
      stats := { totalTrips := totalTrips, assignedCount := assignedCount,
                 unassignedCount := unassignedCount } }

/-! ### Order lemmas for the name comparison -/

theorem charListLt_irrefl : ∀ x : List Char, charListLt x x = false := by
  intro x
  induction x with
  | nil => rfl
  | cons a as ih => simp [charListLt, lt_irrefl, ih]

theorem charListLt_asymm : ∀ {x y : List Char}, charListLt x y = true → charListLt y x = false := by
  intro x
  induction x with
  | nil =>
    intro y h
    cases y with
    | nil => simp [charListLt] at h
    | cons b bs => rfl
  | cons a as ih =>
    intro y h
    cases y with
    | nil => simp [charListLt] at h
    | cons b bs =>
      simp only [charListLt] at h ⊢
      by_cases hab : a < b
      · rw [if_neg (lt_asymm hab), if_pos hab]
      · by_cases hba : b < a
        · rw [if_neg hab, if_pos hba] at h
          cases h
        · rw [if_neg hab, if_neg hba] at h
          rw [if_neg hba, if_neg hab]
          exact ih h

theorem charListLt_conn : ∀ {x y : List Char},
    charListLt x y = false → charListLt y x = false → x = y := by
  intro x
  induction x with
  | nil =>
    intro y h1 _
    cases y with
    | nil => rfl
    | cons b bs => simp [charListLt] at h1
  | cons a as ih =>
    intro y h1 h2
    cases y with
    | nil => simp [charListLt] at h2
    | cons b bs =>
      simp only [charListLt] at h1 h2
      by_cases hab : a < b
      · simp [hab] at h1
      · by_cases hba : b < a
        · simp [hab, hba] at h2
        · simp [hab, hba] at h1 h2
          have hab' : a = b := le_antisymm (le_of_not_lt hba) (le_of_not_lt hab)
          rw [hab', ih h1 h2]

theorem charListLt_tri (x y : List Char) :
    charListLt x y = true ∨ charListLt y x = true ∨ x = y := by
  by_cases h1 : charListLt x y = true
  · exact Or.inl h1
  · by_cases h2 : charListLt y x = true
    · exact Or.inr (Or.inl h2)
    · exact Or.inr (Or.inr (charListLt_conn (Bool.eq_false_iff.mpr h1) (Bool.eq_false_iff.mpr h2)))

theorem charListLt_trans : ∀ {x y z : List Char},
    charListLt x y = true → charListLt y z = true → charListLt x z = true := by
  intro x
  induction x with
  | nil =>
    intro y z h1 h2
    cases y with
    | nil => simp [charListLt] at h1
    | cons b bs =>
      cases z with
      | nil => simp [charListLt] at h2
      | cons c cs => rfl
  | cons a as ih =>
    intro y z h1 h2
    cases y with
    | nil => simp [charListLt] at h1
    | cons b bs =>
      cases z with
      | nil => simp [charListLt] at h2
      | cons c cs =>
        simp only [charListLt] at h1 h2 ⊢
        by_cases hab : a < b
        · by_cases hbc : b < c
          · simp [lt_trans hab hbc]
          · by_cases hcb : c < b
            · simp [hbc, hcb] at h2
            · have hbc' : b = c := le_antisymm (le_of_not_lt hcb) (le_of_not_lt hbc)
              subst hbc'
              simp [hab]
        · by_cases hba : b < a
          · simp [hab, hba] at h1
          · have hab' : a = b := le_antisymm (le_of_not_lt hba) (le_of_not_lt hab)
            subst hab'
            simp [hab] at h1
            by_cases hac : a < c
            · simp [hac]
            · by_cases hca : c < a
              · simp [hac, hca] at h2
              · simp [hac, hca] at h2 ⊢
                exact ih h1 h2

theorem charListLt_false_trans {x y z : List Char}
    (h1 : charListLt y x = false) (h2 : charListLt z y = false) :
    charListLt z x = false := by
  cases hzx : charListLt z x with
  | false => rfl
  | true =>
    rcases charListLt_tri x y with h3 | h3 | h3
    · rw [charListLt_trans hzx h3] at h2
      cases h2
    · rw [h3] at h1
      cases h1
    · subst h3
      rw [hzx] at h2
      cases h2

theorem localeCompare_neg_iff (a b : String) :
    localeCompare a b < 0 ↔ charListLt a.data b.data = true := by
  unfold localeCompare
  by_cases h : charListLt a.data b.data
  · simp [h]
  · by_cases h2 : charListLt b.data a.data <;> simp [h, h2]

/-! ### Lemmas about the stable sort -/

theorem mem_insertSorted {lt : α → α → Bool} {x a : α} :
    ∀ {l : List α}, a ∈ insertSorted lt x l ↔ a = x ∨ a ∈ l := by
  intro l
  induction l with
  | nil => simp [insertSorted]
  | cons y ys ih =>
    simp only [insertSorted]
    by_cases h : lt y x
    · rw [if_pos h]
      simp only [List.mem_cons, ih]
      tauto
    · rw [if_neg h]
      simp only [List.mem_cons]

theorem insertSorted_perm (lt : α → α → Bool) (x : α) :
    ∀ l : List α, (insertSorted lt x l).Perm (x :: l) := by
  intro l
  induction l with
  | nil => exact List.Perm.refl _
  | cons y ys ih =>
    simp only [insertSorted]
    by_cases h : lt y x
    · rw [if_pos h]
      exact (ih.cons y).trans (List.Perm.swap x y ys)
    · rw [if_neg h]

theorem stableSort_perm (lt : α → α → Bool) :
    ∀ l : List α, (stableSort lt l).Perm l := by
  intro l
  induction l with
  | nil => exact List.Perm.refl _
  | cons x xs ih => exact (insertSorted_perm lt x (stableSort lt xs)).trans (ih.cons x)

theorem mem_stableSort {lt : α → α → Bool} {a : α} {l : List α} :
    a ∈ stableSort lt l ↔ a ∈ l :=
  (stableSort_perm lt l).mem_iff

theorem pairwise_insertSorted {lt : α → α → Bool}
    (hasym : ∀ a b, lt a b = true → lt b a = false)
    (htrans : ∀ a b c, lt b a = false → lt c b = false → lt c a = false)
    (x : α) :
    ∀ {l : List α}, l.Pairwise (fun a b => lt b a = false) →
      (insertSorted lt x l).Pairwise (fun a b => lt b a = false) := by
  intro l
  induction l with
  | nil =>
    intro _
    simp [insertSorted]
  | cons y ys ih =>
    intro hp
    rcases List.pairwise_cons.mp hp with ⟨hy, hys⟩
    simp only [insertSorted]
    by_cases h : lt y x
    · rw [if_pos h]
      refine List.pairwise_cons.mpr ⟨?_, ih hys⟩
      intro z hz
      rcases mem_insertSorted.mp hz with hzx | hzys
      · rw [hzx]
        exact hasym y x h
      · exact hy z hzys
    · rw [if_neg h]
      refine List.pairwise_cons.mpr ⟨?_, hp⟩
      intro z hz
      rcases List.mem_cons.mp hz with hzy | hzys
      · rw [hzy]
        exact Bool.eq_false_iff.mpr h
      · exact htrans x y z (Bool.eq_false_iff.mpr h) (hy z hzys)

theorem stableSort_pairwise {lt : α → α → Bool}
    (hasym : ∀ a b, lt a b = true → lt b a = false)
    (htrans : ∀ a b c, lt b a = false → lt c b = false → lt c a = false) :
    ∀ l : List α, (stableSort lt l).Pairwise (fun a b => lt b a = false) := by
  intro l
  induction l with
  | nil => exact List.Pairwise.nil
  | cons x xs ih => exact pairwise_insertSorted hasym htrans x ih

/-! ### The selection order: priority, then load, then name -/

/-- Strict version of the selection order used by the `reduce`: `a` is
strictly preferred to `b`. -/
def keyLt (load : String → Nat) (a b : Driver) : Prop :=
  a.priority.getD 2 < b.priority.getD 2 ∨
    (a.priority.getD 2 = b.priority.getD 2 ∧
      (load a.id < load b.id ∨
        (load a.id = load b.id ∧ charListLt a.name.data b.name.data = true)))

/-- Reflexive selection order: lower priority value first, then lower
current workload, then lexicographically smaller (or equal) name. -/
def keyLe (load : String → Nat) (a b : Driver) : Prop :=
  a.priority.getD 2 < b.priority.getD 2 ∨
    (a.priority.getD 2 = b.priority.getD 2 ∧
      (load a.id < load b.id ∨
        (load a.id = load b.id ∧ charListLt b.name.data a.name.data = false)))

theorem keyLe_refl (load : String → Nat) (a : Driver) : keyLe load a a :=
  Or.inr ⟨rfl, Or.inr ⟨rfl, charListLt_irrefl _⟩⟩

theorem keyLt_keyLe {load : String → Nat} {a b : Driver} (h : keyLt load a b) :
    keyLe load a b := by
  rcases h with hp | ⟨hp, hl | ⟨hl, hn⟩⟩
  · exact Or.inl hp
  · exact Or.inr ⟨hp, Or.inl hl⟩
  · exact Or.inr ⟨hp, Or.inr ⟨hl, charListLt_asymm hn⟩⟩

theorem keyLe_of_not_keyLt {load : String → Nat} {a b : Driver} (h : ¬ keyLt load a b) :
    keyLe load b a := by
  rcases lt_trichotomy (a.priority.getD 2) (b.priority.getD 2) with hp | hp | hp
  · exact absurd (Or.inl hp) h
  · rcases lt_trichotomy (load a.id) (load b.id) with hl | hl | hl
    · exact absurd (Or.inr ⟨hp, Or.inl hl⟩) h
    · cases hn : charListLt a.name.data b.name.data with
      | true => exact absurd (Or.inr ⟨hp, Or.inr ⟨hl, hn⟩⟩) h
      | false => exact Or.inr ⟨hp.symm, Or.inr ⟨hl.symm, hn⟩⟩
    · exact Or.inr ⟨hp.symm, Or.inl hl⟩
  · exact Or.inl hp

theorem keyLe_trans {load : String → Nat} {a b c : Driver}
    (h1 : keyLe load a b) (h2 : keyLe load b c) : keyLe load a c := by
  rcases h1 with hp1 | ⟨hp1, h1'⟩
  · rcases h2 with hp2 | ⟨hp2, _⟩
    · exact Or.inl (lt_trans hp1 hp2)
    · exact Or.inl (hp2 ▸ hp1)
  · rcases h2 with hp2 | ⟨hp2, h2'⟩
    · exact Or.inl (hp1 ▸ hp2)
    · refine Or.inr ⟨hp1.trans hp2, ?_⟩
      rcases h1' with hl1 | ⟨hl1, hn1⟩
      · rcases h2' with hl2 | ⟨hl2, _⟩
        · exact Or.inl (lt_trans hl1 hl2)
        · exact Or.inl (hl2 ▸ hl1)
      · rcases h2' with hl2 | ⟨hl2, hn2⟩
        · exact Or.inl (hl1 ▸ hl2)
        · exact Or.inr ⟨hl1.trans hl2, charListLt_false_trans hn1 hn2⟩

theorem pickBetter_mem (load : String → Nat) (b c : Driver) :
    pickBetter load b c = b ∨ pickBetter load b c = c := by
  simp only [pickBetter]
  split_ifs <;> simp

theorem keyLe_pickBetter_left (load : String → Nat) (b c : Driver) :
    keyLe load (pickBetter load b c) b := by
  simp only [pickBetter]
  split_ifs with h1 h2 h3 h4 h5
  · exact Or.inl h1
  · exact keyLe_refl load b
  · exact Or.inr ⟨le_antisymm (le_of_not_lt h2) (le_of_not_lt h1), Or.inl h3⟩
  · exact keyLe_refl load b
  · refine Or.inr ⟨le_antisymm (le_of_not_lt h2) (le_of_not_lt h1), Or.inr
      ⟨le_antisymm (le_of_not_lt h4) (le_of_not_lt h3), ?_⟩⟩
    exact charListLt_asymm ((localeCompare_neg_iff _ _).mp h5)
  · exact keyLe_refl load b

theorem keyLe_pickBetter_right (load : String → Nat) (b c : Driver) :
    keyLe load (pickBetter load b c) c := by
  simp only [pickBetter]
  split_ifs with h1 h2 h3 h4 h5
  · exact keyLe_refl load c
  · exact Or.inl h2
  · exact keyLe_refl load c
  · exact Or.inr ⟨(le_antisymm (le_of_not_lt h2) (le_of_not_lt h1)).symm, Or.inl h4⟩
  · exact keyLe_refl load c
  · refine Or.inr ⟨(le_antisymm (le_of_not_lt h2) (le_of_not_lt h1)).symm, Or.inr
      ⟨(le_antisymm (le_of_not_lt h4) (le_of_not_lt h3)).symm, ?_⟩⟩
    exact Bool.eq_false_iff.mpr (fun hc => h5 ((localeCompare_neg_iff _ _).mpr hc))

theorem selectDriver_mem (load : String → Nat) :
    ∀ (rest : List Driver) (d0 : Driver), selectDriver load d0 rest ∈ d0 :: rest := by
  intro rest
  induction rest with
  | nil =>
    intro d0
    simp [selectDriver]
  | cons r rs ih =>
    intro d0
    have h := ih (pickBetter load d0 r)
    have hstep : selectDriver load d0 (r :: rs) = selectDriver load (pickBetter load d0 r) rs := rfl
    rw [hstep]
    rcases List.mem_cons.mp h with h' | h'
    · rw [h']
      rcases pickBetter_mem load d0 r with hb | hc
      · rw [hb]
        exact List.mem_cons_self _ _
      · rw [hc]
        exact List.mem_cons.mpr (Or.inr (List.mem_cons_self _ _))
    · exact List.mem_cons.mpr (Or.inr (List.mem_cons.mpr (Or.inr h')))

theorem selectDriver_min (load : String → Nat) :
    ∀ (rest : List Driver) (d0 : Driver), ∀ d ∈ d0 :: rest,
      keyLe load (selectDriver load d0 rest) d := by
  intro rest
  induction rest with
  | nil =>
    intro d0 d hd
    rcases List.mem_cons.mp hd with h | h
    · rw [h]
      exact keyLe_refl load d0
    · cases h
  | cons r rs ih =>
    intro d0 d hd
    have hstep : selectDriver load d0 (r :: rs) = selectDriver load (pickBetter load d0 r) rs := rfl
    rw [hstep]
    have hsel_pick : keyLe load (selectDriver load (pickBetter load d0 r) rs) (pickBetter load d0 r) :=
      ih (pickBetter load d0 r) (pickBetter load d0 r) (List.mem_cons_self _ _)
    rcases List.mem_cons.mp hd with h | h
    · rw [h]
      exact keyLe_trans hsel_pick (keyLe_pickBetter_left load d0 r)
    · rcases List.mem_cons.mp h with h' | h'
      · rw [h']
        exact keyLe_trans hsel_pick (keyLe_pickBetter_right load d0 r)
      · exact ih (pickBetter load d0 r) d (List.mem_cons.mpr (Or.inr h'))

/-! ### Lemmas about the seeding fold -/

theorem seedStep_accumulators (st : LoopState) (ea : ExistingAssignment) :
    (seedStep st ea).assignments = st.assignments ∧ (seedStep st ea).warnings = st.warnings := by
  unfold seedStep
  cases st.tstamps ea.driverId <;> simp

theorem seedFold_accumulators :
    ∀ (eas : List ExistingAssignment) (st : LoopState),
      (eas.foldl seedStep st).assignments = st.assignments ∧
        (eas.foldl seedStep st).warnings = st.warnings := by
  intro eas
  induction eas with
  | nil =>
    intro st
    exact ⟨rfl, rfl⟩
  | cons ea rest ih =>
    intro st
    rw [List.foldl_cons]
    rcases ih (seedStep st ea) with ⟨h1, h2⟩
    rcases seedStep_accumulators st ea with ⟨h3, h4⟩
    exact ⟨h1.trans h3, h2.trans h4⟩

/-- Timestamp value appended for an existing assignment. -/
def existingTs (ea : ExistingAssignment) : Nat :=
  getTimestamp ea.tripDate ea.plannedArrivalTime

theorem seedStep_tstamps_isSome (st : LoopState) (ea : ExistingAssignment) (id : String) :
    ((seedStep st ea).tstamps id).isSome = (st.tstamps id).isSome := by
  unfold seedStep
  cases h : st.tstamps ea.driverId with
  | none => rfl
  | some l =>
    simp only [pushTimestamp]
    by_cases hid : id = ea.driverId
    · subst hid
      simp [h]
    · simp [hid]

theorem seedFold_tstamps :
    ∀ (eas : List ExistingAssignment) (st : LoopState) (id : String),
      (eas.foldl seedStep st).tstamps id =
        (st.tstamps id).map
          (fun l => l ++ (eas.filter (fun ea => ea.driverId == id)).map existingTs) := by
  intro eas
  induction eas with
  | nil =>
    intro st id
    rw [List.foldl_nil]
    cases h : st.tstamps id <;> simp [h]
  | cons ea rest ih =>
    intro st id
    rw [List.foldl_cons, ih (seedStep st ea) id]
    by_cases hid : ea.driverId = id
    · subst hid
      cases h : st.tstamps ea.driverId with
      | none =>
        simp [seedStep, h]
      | some l =>
        simp [seedStep, h, pushTimestamp, existingTs, List.filter_cons]
    · cases h : st.tstamps ea.driverId with
      | none =>
        simp [seedStep, h, List.filter_cons, hid]
      | some l =>
        have hne : ¬ (id = ea.driverId) := fun hc => hid hc.symm
        simp [seedStep, h, pushTimestamp, hne, List.filter_cons, hid]

theorem seedFold_load :
    ∀ (eas : List ExistingAssignment) (st : LoopState) (id : String),
      (eas.foldl seedStep st).load id =
        if (st.tstamps id).isSome then
          st.load id + (eas.filter (fun ea => ea.driverId == id)).length
        else st.load id := by
  intro eas
  induction eas with
  | nil =>
    intro st id
    cases h : st.tstamps id <;> simp [h]
  | cons ea rest ih =>
    intro st id
    rw [List.foldl_cons, ih (seedStep st ea) id, seedStep_tstamps_isSome]
    by_cases hid : ea.driverId = id
    · subst hid
      cases h : st.tstamps ea.driverId with
      | none =>
        simp [seedStep, h]
      | some l =>
        simp [seedStep, h, bumpLoad, List.filter_cons]
        omega
    · have hne : ¬ (id = ea.driverId) := fun hc => hid hc.symm
      cases h : st.tstamps ea.driverId with
      | none =>
        simp [seedStep, h, List.filter_cons, hid]
      | some l =>
        simp [seedStep, h, bumpLoad, hne, List.filter_cons, hid]

/-! ### The shape of one main-loop step -/

theorem processTrip_shape (dbd : Nat → List Driver) (st : LoopState) (t : Trip) :
    ((∃ w, processTrip dbd st t = { st with warnings := st.warnings ++ [w] }) ∧
      availableDriversFor dbd st t = []) ∨
    (∃ d0 rest, availableDriversFor dbd st t = d0 :: rest ∧
      processTrip dbd st t =
        { assignments := st.assignments ++ [mkAssignment t (selectDriver st.load d0 rest)]
          warnings := st.warnings
          load := bumpLoad st.load (selectDriver st.load d0 rest).id
          tstamps := pushTimestamp st.tstamps (selectDriver st.load d0 rest).id
            (tripTimestampOf t) }) := by
  cases h : availableDriversFor dbd st t with
  | nil =>
    left
    refine ⟨?_, rfl⟩
    by_cases hlen : (dbd (effectiveDayOf t)).length = 0
    · exact ⟨noDriverWarning t, by simp [processTrip, h, hlen]⟩
    · exact ⟨conflictWarning t, by simp [processTrip, h, hlen]⟩
  | cons d0 rest =>
    right
    exact ⟨d0, rest, rfl, by simp [processTrip, h]⟩

/-! ### Lemmas about the main loop fold -/

theorem foldl_counts (dbd : Nat → List Driver) :
    ∀ (ts : List Trip) (st : LoopState),
      (ts.foldl (processTrip dbd) st).assignments.length +
          (ts.foldl (processTrip dbd) st).warnings.length =
        st.assignments.length + st.warnings.length + ts.length := by
  intro ts
  induction ts with
  | nil =>
    intro st
    simp
  | cons t ts' ih =>
    intro st
    rw [List.foldl_cons, ih (processTrip dbd st t)]
    rcases processTrip_shape dbd st t with ⟨⟨w, hw⟩, _⟩ | ⟨d0, rest, _, hw⟩ <;>
      rw [hw] <;> simp <;> omega

theorem foldl_assignments_mem (dbd : Nat → List Driver) :
    ∀ (ts : List Trip) (st : LoopState) (a : Assignment),
      a ∈ (ts.foldl (processTrip dbd) st).assignments →
        a ∈ st.assignments ∨
          ∃ t ∈ ts, ∃ d, d ∈ dbd (effectiveDayOf t) ∧ a = mkAssignment t d := by
  intro ts
  induction ts with
  | nil =>
    intro st a ha
    exact Or.inl ha
  | cons t ts' ih =>
    intro st a ha
    rw [List.foldl_cons] at ha
    rcases ih (processTrip dbd st t) a ha with h | ⟨t', ht', d, hd, ha'⟩
    · rcases processTrip_shape dbd st t with ⟨⟨w, hw⟩, _⟩ | ⟨d0, rest, havail, hw⟩
      · rw [hw] at h
        exact Or.inl h
      · rw [hw] at h
        rcases List.mem_append.mp h with h' | h'
        · exact Or.inl h'
        · have hsel : selectDriver st.load d0 rest ∈ availableDriversFor dbd st t := by
            rw [havail]
            exact selectDriver_mem st.load rest d0
          have hdbd : selectDriver st.load d0 rest ∈ dbd (effectiveDayOf t) :=
            (List.mem_filter.mp hsel).1
          have ha'' : a = mkAssignment t (selectDriver st.load d0 rest) := by
            simpa using h'
          exact Or.inr ⟨t, List.mem_cons_self _ _, selectDriver st.load d0 rest, hdbd, ha''⟩
    · exact Or.inr ⟨t', List.mem_cons.mpr (Or.inr ht'), d, hd, ha'⟩

theorem foldl_load_delta (dbd : Nat → List Driver) :
    ∀ (ts : List Trip) (st : LoopState),
      ∃ new, (ts.foldl (processTrip dbd) st).assignments = st.assignments ++ new ∧
        ∀ id, (ts.foldl (processTrip dbd) st).load id =
          st.load id + (new.filter (fun a => a.driverId == id)).length := by
  intro ts
  induction ts with
  | nil =>
    intro st
    exact ⟨[], by simp, fun id => by simp⟩
  | cons t ts' ih =>
    intro st
    obtain ⟨new, hasg, hload⟩ := ih (processTrip dbd st t)
    rw [List.foldl_cons] at *
    rcases processTrip_shape dbd st t with ⟨⟨w, hw⟩, _⟩ | ⟨d0, rest, havail, hw⟩
    · refine ⟨new, ?_, ?_⟩
      · rw [hasg, hw]
      · intro id
        rw [hload id, hw]
    · refine ⟨mkAssignment t (selectDriver st.load d0 rest) :: new, ?_, ?_⟩
      · rw [hasg, hw]
        simp
      · intro id
        rw [hload id, hw]
        simp only [bumpLoad, List.filter_cons]
        by_cases hid : (selectDriver st.load d0 rest).id = id
        · subst hid
          simp [mkAssignment]
          omega
        · have hne : ¬ (id = (selectDriver st.load d0 rest).id) := fun hc => hid hc.symm
          simp [mkAssignment, hne, hid]

/-- Pairwise minimum-separation property of a timestamp list. -/
def sepList (l : List Nat) : Prop :=
  l.Pairwise (fun a b => timestampsTooClose a b = false)

theorem processTrip_preserves_sep (dbd : Nat → List Driver) (st : LoopState) (t : Trip)
    (h : ∀ id, sepList ((st.tstamps id).getD [])) :
    ∀ id, sepList (((processTrip dbd st t).tstamps id).getD []) := by
  rcases processTrip_shape dbd st t with ⟨⟨w, hw⟩, _⟩ | ⟨d0, rest, havail, hw⟩
  · rw [hw]
    exact h
  · rw [hw]
    intro id
    simp only [pushTimestamp]
    by_cases hid : id = (selectDriver st.load d0 rest).id
    · rw [if_pos hid]
      have hsel : selectDriver st.load d0 rest ∈ availableDriversFor dbd st t := by
        rw [havail]
        exact selectDriver_mem st.load rest d0
      have hpred := (List.mem_filter.mp hsel).2
      have hconf : hasConflict ((st.tstamps (selectDriver st.load d0 rest).id).getD [])
          (tripTimestampOf t) = false := by
        simpa using hpred
      have hall : ∀ x ∈ (st.tstamps (selectDriver st.load d0 rest).id).getD [],
          timestampsTooClose x (tripTimestampOf t) = false := by
        intro x hx
        have := List.any_eq_false.mp hconf x hx
        simpa using this
      have hprev := h (selectDriver st.load d0 rest).id
      simp only [Option.getD_some]
      refine List.pairwise_append.mpr ⟨hprev, ?_, ?_⟩
      · simp [sepList]
      · intro a ha b hb
        rcases List.mem_singleton.mp hb with rfl
        exact hall a ha
    · rw [if_neg hid]
      exact h id

theorem foldl_preserves_sep (dbd : Nat → List Driver) :
    ∀ (ts : List Trip) (st : LoopState),
      (∀ id, sepList ((st.tstamps id).getD [])) →
        ∀ id, sepList (((ts.foldl (processTrip dbd) st).tstamps id).getD []) := by
  intro ts
  induction ts with
  | nil =>
    intro st h
    exact h
  | cons t ts' ih =>
    intro st h
    rw [List.foldl_cons]
    exact ih (processTrip dbd st t) (processTrip_preserves_sep dbd st t h)

/-! ### Spec-side definitions used to state the claims -/

/-- Start of the UTC day containing a timestamp (spec wording: "combine
tripDate with plannedArrivalTime ... UTC-normalized"). -/
def specStartOfDayUTC (ms : Nat) : Nat := ms / msPerDay * msPerDay

/-- Millisecond offset within the day dictated by a planned arrival time
(midnight when the time is absent or invalid). -/
def specTimeOffsetMs (time : Option String) : Nat :=
  match parseTime time with
  | some p => p.hours.toNat * 3600000 + p.minutes.toNat * 60000
  | none => 0

/-- Effective day as the claims word it: previous day (Sunday wrapping to
Saturday) exactly when the time parses with hour strictly below the cutoff,
the literal day otherwise. -/
def effectiveDaySpec (day : Nat) (time : Option String) : Nat :=
  match parseTime time with
  | some p =>
    if p.hours < NIGHT_SHIFT_CUTOFF_HOUR then (if day = 0 then 6 else day - 1) else day
  | none => day

/-- Value of an all-digit character run. -/
def digitsVal (cs : List Char) : Nat := cs.foldl (fun acc c => acc * 10 + digitVal c) 0

/-- Syntactic validity of a time string in the sense of the spec's words: a
string of the shape "HH:MM" (or "H:MM"), both parts nonempty runs of
decimal digits, with hour in [0,23] and minute in [0,59].  This is the
claim-side validity predicate, to be compared with the behaviour of the
source `parseTime`. -/
def specValidHHMM (s : String) : Bool :=
  match splitChar ':' s with
  | [hh, mm] =>
    !hh.isEmpty && !mm.isEmpty && hh.all Char.isDigit && mm.all Char.isDigit &&
      decide (digitsVal hh ≤ 23) && decide (digitsVal mm ≤ 59)
  | _ => false

/-- Pre-existing timestamps recorded for one driver id. -/
def existingTsFor (eas : List ExistingAssignment) (id : String) : List Nat :=
  (eas.filter (fun ea => ea.driverId == id)).map existingTs

/-- Combined trip count of a driver id: pre-existing assignments plus new
assignments of this run (spec wording for the distribution). -/
def combinedCount (eas : List ExistingAssignment) (asgns : List Assignment) (id : String) : Nat :=
  (eas.filter (fun ea => ea.driverId == id)).length +
    (asgns.filter (fun a => a.driverId == id)).length

/-! ### Claim theorems -/

/-- C10: with an empty trips list the engine returns the fixed
"No trips to assign" result — empty assignments, warnings and distribution
and all-zero stats — for every drivers list and every existing-assignment
list; in particular the empty-trips branch takes precedence over the
empty-drivers branch, so no "No active drivers available" warning is
emitted. -/
theorem empty_trips_result (drivers : List Driver) (eas : List ExistingAssignment) :
    assignTripsToDrivers [] drivers eas =
      { assignments := []
        warnings := []
        summary := "No trips to assign"
        distribution := []
        stats := { totalTrips := 0, assignedCount := 0, unassignedCount := 0 } } := rfl

/-- C4: the result stats are consistent for every input: `totalTrips` is
the length of the input trips list, `assignedCount` is the length of the
returned assignments list, and assigned plus unassigned equals total. -/
theorem stats_consistent (trips : List Trip) (drivers : List Driver)
    (eas : List ExistingAssignment) :
    (assignTripsToDrivers trips drivers eas).stats.totalTrips = trips.length ∧
    (assignTripsToDrivers trips drivers eas).stats.assignedCount =
      (assignTripsToDrivers trips drivers eas).assignments.length ∧
    (assignTripsToDrivers trips drivers eas).stats.assignedCount +
        (assignTripsToDrivers trips drivers eas).stats.unassignedCount =
      (assignTripsToDrivers trips drivers eas).stats.totalTrips := by
  by_cases h1 : trips.length = 0
  · simp [assignTripsToDrivers, h1]
  · by_cases h2 : drivers.length = 0
    · simp [assignTripsToDrivers, h1, h2]
    · have hseed := seedFold_accumulators eas (initState drivers)
      have hcounts := foldl_counts (driversByDay drivers) trips (seededState drivers eas)
      have hlen : (runEngine trips drivers eas).assignments.length ≤ trips.length := by
        unfold runEngine
        have hz1 : (seededState drivers eas).assignments.length = 0 := by
          unfold seededState
          rw [hseed.1]
          rfl
        have hz2 : (seededState drivers eas).warnings.length = 0 := by
          unfold seededState
          rw [hseed.2]
          rfl
        omega
      simp only [assignTripsToDrivers, if_neg h1, if_neg h2]
      refine ⟨by trivial, by trivial, ?_⟩
      omega

/-- C9: existing assignments whose driver id is not among the input drivers
are ignored entirely — the engine result is identical to the result on the
input with all such entries removed. -/
theorem unknown_existing_ignored (trips : List Trip) (drivers : List Driver)
    (eas : List ExistingAssignment) :
    assignTripsToDrivers trips drivers eas =
      assignTripsToDrivers trips drivers
        (eas.filter (fun ea => (drivers.map Driver.id).contains ea.driverId)) := by
  have key : ∀ (eas' : List ExistingAssignment) (st : LoopState),
      (∀ k, (st.tstamps k).isSome = (drivers.map Driver.id).contains k) →
      eas'.foldl seedStep st =
        (eas'.filter (fun ea => (drivers.map Driver.id).contains ea.driverId)).foldl seedStep st := by
    intro eas'
    induction eas' with
    | nil =>
      intro st _
      rfl
    | cons ea rest ih =>
      intro st hdom
      by_cases hk : (drivers.map Driver.id).contains ea.driverId
      · have hfilter : (ea :: rest).filter (fun e => (drivers.map Driver.id).contains e.driverId)
            = ea :: rest.filter (fun e => (drivers.map Driver.id).contains e.driverId) := by
          simp only [List.filter_cons, hk, if_true]
        rw [hfilter, List.foldl_cons, List.foldl_cons]
        exact ih (seedStep st ea)
          (fun k => (seedStep_tstamps_isSome st ea k).trans (hdom k))
      · have hk' : (drivers.map Driver.id).contains ea.driverId = false :=
          Bool.eq_false_iff.mpr hk
        have hnone : st.tstamps ea.driverId = none := by
          cases hc : st.tstamps ea.driverId with
          | none => rfl
          | some l =>
            have := hdom ea.driverId
            rw [hc, hk'] at this
            cases this
        have hfilter : (ea :: rest).filter (fun e => (drivers.map Driver.id).contains e.driverId)
            = rest.filter (fun e => (drivers.map Driver.id).contains e.driverId) := by
          simp only [List.filter_cons, hk']
          rfl
        rw [hfilter, List.foldl_cons]
        have hstep : seedStep st ea = st := by
          simp [seedStep, hnone]
        rw [hstep]
        exact ih st hdom
  have hdom0 : ∀ k, ((initState drivers).tstamps k).isSome =
      (drivers.map Driver.id).contains k := by
    intro k
    have hshape : (initState drivers).tstamps k =
        if (drivers.map Driver.id).contains k then some [] else none := rfl
    rw [hshape]
    by_cases hc : ((drivers.map Driver.id).contains k) = true
    · rw [if_pos hc, hc]
      rfl
    · rw [if_neg hc, Bool.eq_false_iff.mpr hc]
      rfl
  have hseed : seededState drivers eas =
      seededState drivers (eas.filter (fun ea => (drivers.map Driver.id).contains ea.driverId)) :=
    key eas (initState drivers) hdom0
  unfold assignTripsToDrivers runEngine
  rw [hseed]

/-- C7: the conflict timestamp of a trip combines the literal trip date
with the parsed planned time (midnight when absent or invalid), and it is
unaffected by the night-shift rule: even when the parsed hour is strictly
before the cutoff — so that the effective day for availability matching is
the previous day — the timestamp keeps the literal calendar date. -/
theorem timestamp_literal_date (date day : Nat) (time : Option String) :
    getTimestamp date time = specStartOfDayUTC date + specTimeOffsetMs time ∧
    (∀ p, parseTime time = some p → p.hours < NIGHT_SHIFT_CUTOFF_HOUR →
      getEffectiveDayOfWeek day time = (if day = 0 then 6 else day - 1)) := by
  constructor
  · cases hp : parseTime time with
    | none => simp [getTimestamp, specStartOfDayUTC, specTimeOffsetMs, hp]
    | some p => simp [getTimestamp, specStartOfDayUTC, specTimeOffsetMs, hp, Nat.add_assoc]
  · intro p hp hlt
    simp only [getEffectiveDayOfWeek, hp]
    rw [if_neg (not_le.mpr hlt)]

/-- C7 witness: concrete evaluation at a trip on day 3 at 00:20 — the
timestamp decomposes over the literal date while the effective day moves to
day 2. -/
theorem timestamp_literal_date_witness :
    getTimestamp 432000123 (some "00:20") =
      specStartOfDayUTC 432000123 + specTimeOffsetMs (some "00:20") ∧
    getEffectiveDayOfWeek 3 (some "00:20") = 2 := by
  refine ⟨(timestamp_literal_date 432000123 3 (some "00:20")).1, ?_⟩
  have h := (timestamp_literal_date 432000123 3 (some "00:20")).2
    { hours := 0, minutes := 20 } (by decide) (by decide)
  simpa using h

/-- C6 (amended): a present time string that the source `parseTime`
rejects — wrong number of ":" parts, a part with no leading integer, or an
out-of-range hour or minute — yields the same conflict timestamp (midnight
of the trip date) and the same effective day (the literal day) as an absent
time, and the engine is total (it never raises).  The original claim's
validity notion ("syntactically valid HH:MM") differs from `parseTime`:
strings such as "1a:30" are not valid HH:MM but are parsed by the source as
1:30, see the counterexample. -/
theorem invalid_time_behaves_as_null (date day : Nat) (s : String)
    (h : parseTime (some s) = none) :
    getTimestamp date (some s) = getTimestamp date none ∧
    getEffectiveDayOfWeek day (some s) = getEffectiveDayOfWeek day none := by
  have hn : parseTime none = none := rfl
  constructor <;> simp only [getTimestamp, getEffectiveDayOfWeek, h, hn]

/-- C6 witness: "12:99" has an out-of-range minute, so `parseTime` rejects
it and both derived quantities agree with the absent-time case. -/
theorem invalid_time_behaves_as_null_witness :
    getTimestamp 86400123 (some "12:99") = getTimestamp 86400123 none ∧
    getEffectiveDayOfWeek 4 (some "12:99") = getEffectiveDayOfWeek 4 none :=
  invalid_time_behaves_as_null 86400123 4 "12:99" (by decide)

/-- Driver fixtures for the C6 counterexample. -/
def c6Driver : Driver :=
  { id := "d1", name := "dan", priority := some 2, availability := [{ dayOfWeek := 2 }] }

/-- Trip with the junk time string "1a:30" (not valid HH:MM, yet parsed by
the source as 1:30). -/
def c6TripJunk : Trip :=
  { id := "t1", tripId := "T1", tripDate := 0, dayOfWeek := 3, plannedArrivalTime := some "1a:30" }

/-- The same trip with no planned time. -/
def c6TripNone : Trip :=
  { id := "t1", tripId := "T1", tripDate := 0, dayOfWeek := 3, plannedArrivalTime := none }

/-- C6 counterexample: "1a:30" is not a syntactically valid HH:MM time,
yet the engine does not treat it like an absent time: JavaScript `parseInt`
reads the digit prefix, the trip parses as 1:30, its effective day rolls
back to day 2, and a day-2 driver gets it — with an absent time the trip is
unassignable on day 3. -/
theorem invalid_time_counterexample :
    specValidHHMM "1a:30" = false ∧
    assignTripsToDrivers [c6TripJunk] [c6Driver] [] ≠
      assignTripsToDrivers [c6TripNone] [c6Driver] [] := by
  constructor
  · decide
  · decide

instance decidableSepList (l : List Nat) : Decidable (sepList l) := by
  unfold sepList
  infer_instance

instance decidableKeyLe (load : String → Nat) (a b : Driver) : Decidable (keyLe load a b) := by
  unfold keyLe
  infer_instance

/-- The warning the main loop emits for a trip it cannot assign: it
depends only on the trip and the per-day driver index, not on the mutable
state — "no driver available" when nobody works the effective day,
"conflicting trips" otherwise. -/
def warningFor (dbd : Nat → List Driver) (t : Trip) : String :=
  if (dbd (effectiveDayOf t)).length = 0 then noDriverWarning t else conflictWarning t

theorem processTrip_warning_eq (dbd : Nat → List Driver) (st : LoopState) (t : Trip)
    (h : availableDriversFor dbd st t = []) :
    processTrip dbd st t = { st with warnings := st.warnings ++ [warningFor dbd t] } := by
  by_cases hlen : (dbd (effectiveDayOf t)).length = 0
  · simp [processTrip, h, warningFor, hlen]
  · simp [processTrip, h, warningFor, hlen]

theorem foldl_warnings_delta (dbd : Nat → List Driver) :
    ∀ (ts : List Trip) (st : LoopState),
      ∃ U : List Trip, U.Sublist ts ∧
        (ts.foldl (processTrip dbd) st).warnings = st.warnings ++ U.map (warningFor dbd) ∧
        (ts.foldl (processTrip dbd) st).assignments.length + U.length =
          st.assignments.length + ts.length := by
  intro ts
  induction ts with
  | nil =>
    intro st
    exact ⟨[], List.nil_sublist _, by simp, by simp⟩
  | cons t ts' ih =>
    intro st
    rw [List.foldl_cons]
    obtain ⟨U, hsub, hw, hlen⟩ := ih (processTrip dbd st t)
    rcases processTrip_shape dbd st t with ⟨⟨w, _⟩, hempty⟩ | ⟨d0, rest, havail, hws⟩
    · have hstep := processTrip_warning_eq dbd st t hempty
      have hA : (processTrip dbd st t).assignments = st.assignments := by
        rw [hstep]
      have hW : (processTrip dbd st t).warnings = st.warnings ++ [warningFor dbd t] := by
        rw [hstep]
      refine ⟨t :: U, List.Sublist.cons₂ t hsub, ?_, ?_⟩
      · rw [hw, hW]
        simp
      · rw [hA] at hlen
        simp only [List.length_cons]
        omega
    · have hA : (processTrip dbd st t).assignments =
          st.assignments ++ [mkAssignment t (selectDriver st.load d0 rest)] := by
        rw [hws]
      have hW : (processTrip dbd st t).warnings = st.warnings := by
        rw [hws]
      refine ⟨U, List.Sublist.cons t hsub, ?_, ?_⟩
      · rw [hw, hW]
      · rw [hA] at hlen
        simp only [List.length_append, List.length_cons, List.length_nil] at hlen ⊢
        omega

/-- C5 (amended): whenever the drivers list is nonempty, the warnings list
consists of exactly one warning per trip that could not be assigned, in
trip-processing order — there is an order-preserving sublist of the input
trips (the unassigned ones) whose per-trip warnings form the warnings list,
its length is `stats.unassignedCount`, and assignments and warnings
together account for every input trip.  When the drivers list is empty and
trips is nonempty, a single aggregate warning "No active drivers
available" is emitted regardless of the number of unassigned trips, so the
per-trip correspondence fails there (see the counterexample). -/
theorem warnings_match_unassigned (trips : List Trip) (drivers : List Driver)
    (eas : List ExistingAssignment) :
    (drivers ≠ [] →
      ∃ unassigned : List Trip,
        unassigned.Sublist trips ∧
        (assignTripsToDrivers trips drivers eas).warnings =
          unassigned.map (warningFor (driversByDay drivers)) ∧
        unassigned.length = (assignTripsToDrivers trips drivers eas).stats.unassignedCount ∧
        (assignTripsToDrivers trips drivers eas).assignments.length +
            (assignTripsToDrivers trips drivers eas).warnings.length = trips.length) ∧
    (trips ≠ [] →
      (assignTripsToDrivers trips [] eas).warnings = ["No active drivers available"] ∧
      (assignTripsToDrivers trips [] eas).stats.unassignedCount = trips.length) := by
  constructor
  · intro hd
    have h2 : ¬ drivers.length = 0 := fun hc => hd (List.length_eq_zero.mp hc)
    by_cases h1 : trips.length = 0
    · have htr : trips = [] := List.length_eq_zero.mp h1
      subst htr
      exact ⟨[], List.nil_sublist _, rfl, rfl, rfl⟩
    · obtain ⟨U, hsub, hw, hlen⟩ :=
        foldl_warnings_delta (driversByDay drivers) trips (seededState drivers eas)
      have hseed := seedFold_accumulators eas (initState drivers)
      have hseedA : (seededState drivers eas).assignments = [] := by
        unfold seededState
        rw [hseed.1]
        rfl
      have hseedW : (seededState drivers eas).warnings = [] := by
        unfold seededState
        rw [hseed.2]
        rfl
      have hwarn : (runEngine trips drivers eas).warnings = U.map (warningFor (driversByDay drivers)) := by
        unfold runEngine
        rw [hw, hseedW, List.nil_append]
      have hsum : (runEngine trips drivers eas).assignments.length + U.length = trips.length := by
        have hz : (seededState drivers eas).assignments.length = 0 := by
          rw [hseedA]
          rfl
        unfold runEngine
        omega
      have hwlen : (runEngine trips drivers eas).warnings.length = U.length := by
        rw [hwarn, List.length_map]
      refine ⟨U, hsub, ?_, ?_, ?_⟩
      · simp only [assignTripsToDrivers, if_neg h1, if_neg h2]
        exact hwarn
      · simp only [assignTripsToDrivers, if_neg h1, if_neg h2]
        omega
      · simp only [assignTripsToDrivers, if_neg h1, if_neg h2]
        omega
  · intro ht
    have h1 : ¬ trips.length = 0 := fun hc => ht (List.length_eq_zero.mp hc)
    constructor <;> simp [assignTripsToDrivers, h1]

/-- Trip fixture for C5. -/
def c5Trip1 : Trip :=
  { id := "t1", tripId := "T1", tripDate := 0, dayOfWeek := 0, plannedArrivalTime := none }

/-- Second trip fixture for C5. -/
def c5Trip2 : Trip :=
  { id := "t2", tripId := "T2", tripDate := 0, dayOfWeek := 1, plannedArrivalTime := none }

/-- Driver fixture for the C5 witness. -/
def c5Driver : Driver :=
  { id := "d1", name := "dan", priority := some 2, availability := [{ dayOfWeek := 0 }] }

/-- C5 counterexample: with two trips and no drivers the engine emits a
single aggregate warning while `unassignedCount` is 2, so the warnings list
does not contain one entry per unassigned trip. -/
theorem warnings_match_unassigned_counterexample :
    ¬ ((assignTripsToDrivers [c5Trip1, c5Trip2] [] []).warnings.length =
      (assignTripsToDrivers [c5Trip1, c5Trip2] [] []).stats.unassignedCount) := by
  decide

/-- C5 witness: with a nonempty drivers list (one trip assigned, one
unassigned) the warnings are a per-unassigned-trip map over an
order-preserving sublist of the trips; and with an empty drivers list (and
two trips) the single aggregate warning is emitted while the unassigned
count is 2. -/
theorem warnings_match_unassigned_witness :
    (∃ unassigned : List Trip,
      unassigned.Sublist [c5Trip1, c5Trip2] ∧
      (assignTripsToDrivers [c5Trip1, c5Trip2] [c5Driver] []).warnings =
        unassigned.map (warningFor (driversByDay [c5Driver])) ∧
      unassigned.length =
        (assignTripsToDrivers [c5Trip1, c5Trip2] [c5Driver] []).stats.unassignedCount ∧
      (assignTripsToDrivers [c5Trip1, c5Trip2] [c5Driver] []).assignments.length +
          (assignTripsToDrivers [c5Trip1, c5Trip2] [c5Driver] []).warnings.length = 2) ∧
    ((assignTripsToDrivers [c5Trip1, c5Trip2] [] []).warnings =
        ["No active drivers available"] ∧
      (assignTripsToDrivers [c5Trip1, c5Trip2] [] []).stats.unassignedCount = 2) :=
  ⟨(warnings_match_unassigned [c5Trip1, c5Trip2] [c5Driver] []).1 (by decide),
   (warnings_match_unassigned [c5Trip1, c5Trip2] [] []).2 (by decide)⟩

/-- C2: the effective day used for availability matching is the previous
calendar day (Sunday wrapping to Saturday) exactly when the planned time
parses to an hour strictly below the cutoff, and the literal day otherwise
(absent or unparseable time, or hour at/after the cutoff); and every
assignment produced by the engine pairs a trip of the input with a driver
of the input whose availability contains that trip's effective day. -/
theorem availability_respected (trips : List Trip) (drivers : List Driver)
    (eas : List ExistingAssignment) :
    (∀ day time, getEffectiveDayOfWeek day time = effectiveDaySpec day time) ∧
    (∀ a ∈ (assignTripsToDrivers trips drivers eas).assignments,
      ∃ t ∈ trips, ∃ d ∈ drivers,
        a.tripId = t.id ∧ a.driverId = d.id ∧
          d.availability.any
            (fun av => av.dayOfWeek ==
              getEffectiveDayOfWeek t.dayOfWeek t.plannedArrivalTime) = true) := by
  constructor
  · intro day time
    cases hp : parseTime time with
    | none => simp [getEffectiveDayOfWeek, effectiveDaySpec, hp]
    | some p =>
      simp only [getEffectiveDayOfWeek, effectiveDaySpec, hp]
      rcases lt_or_ge p.hours NIGHT_SHIFT_CUTOFF_HOUR with hlt | hge
      · rw [if_neg (not_le.mpr hlt), if_pos hlt]
      · rw [if_pos hge, if_neg (not_lt.mpr hge)]
  · intro a ha
    by_cases h1 : trips.length = 0
    · simp [assignTripsToDrivers, h1] at ha
    · by_cases h2 : drivers.length = 0
      · simp [assignTripsToDrivers, h1, h2] at ha
      · have ha' : a ∈ (runEngine trips drivers eas).assignments := by
          simp only [assignTripsToDrivers, if_neg h1, if_neg h2] at ha
          exact ha
        have hseed0 : (seededState drivers eas).assignments = [] := by
          unfold seededState
          rw [(seedFold_accumulators eas (initState drivers)).1]
          rfl
        unfold runEngine at ha'
        rcases foldl_assignments_mem (driversByDay drivers) trips (seededState drivers eas) a ha'
          with hmem | ⟨t, ht, d, hd, ha2⟩
        · rw [hseed0] at hmem
          cases hmem
        · have hd' : d ∈ drivers ∧
              d.availability.any (fun av => av.dayOfWeek == effectiveDayOf t) = true := by
            unfold driversByDay at hd
            by_cases h7 : effectiveDayOf t < 7
            · rw [if_pos h7] at hd
              unfold driversAvailableOn at hd
              exact List.mem_filter.mp (mem_stableSort.mp hd)
            · rw [if_neg h7] at hd
              cases hd
          refine ⟨t, ht, d, hd'.1, ?_, ?_, hd'.2⟩
          · rw [ha2]
            rfl
          · rw [ha2]
            rfl

/-- Trip fixture for the C2 witness (Sunday, 10:00). -/
def c2Trip : Trip :=
  { id := "t1", tripId := "T1", tripDate := 0, dayOfWeek := 0, plannedArrivalTime := some "10:00" }

/-- Driver fixture for the C2 witness (available Sunday). -/
def c2Driver : Driver :=
  { id := "d1", name := "dan", priority := some 2, availability := [{ dayOfWeek := 0 }] }

/-- The assignment the engine produces on the C2 witness input. -/
def c2Assign : Assignment :=
  { tripId := "t1", driverId := "d1", reasoning := "Sunday - dan (med priority)" }

/-- C2 witness: concrete run producing one assignment whose driver is
available on the trip's effective day. -/
theorem availability_respected_witness :
    ∃ t ∈ [c2Trip], ∃ d ∈ [c2Driver],
      c2Assign.tripId = t.id ∧ c2Assign.driverId = d.id ∧
        d.availability.any
          (fun av => av.dayOfWeek ==
            getEffectiveDayOfWeek t.dayOfWeek t.plannedArrivalTime) = true :=
  (availability_respected [c2Trip] [c2Driver] []).2 c2Assign (by decide)

/-- C3: whenever the candidate list (availability-matching and
non-conflicting drivers) of a trip is nonempty, the engine assigns the trip
to the `reduce`-selected driver, that driver is one of the candidates, and
it is minimal among all candidates under the lexicographic order: priority
value (absent counting as 2) first, then current workload, then
lexicographically smaller name — in particular a strictly better priority
wins regardless of workloads. -/
theorem selection_minimal (dbd : Nat → List Driver) (st : LoopState) (t : Trip)
    (d0 : Driver) (rest : List Driver)
    (h : availableDriversFor dbd st t = d0 :: rest) :
    (processTrip dbd st t).assignments =
      st.assignments ++ [mkAssignment t (selectDriver st.load d0 rest)] ∧
    selectDriver st.load d0 rest ∈ d0 :: rest ∧
    ∀ d ∈ d0 :: rest, keyLe st.load (selectDriver st.load d0 rest) d := by
  refine ⟨?_, selectDriver_mem st.load rest d0, selectDriver_min st.load rest d0⟩
  simp [processTrip, h]

/-- High-priority, heavily loaded driver for the C3 witness. -/
def c3DriverA : Driver :=
  { id := "a", name := "amy", priority := some 1, availability := [{ dayOfWeek := 0 }] }

/-- Medium-priority, unloaded driver for the C3 witness. -/
def c3DriverB : Driver :=
  { id := "b", name := "bob", priority := some 2, availability := [{ dayOfWeek := 0 }] }

/-- Engine state for the C3 witness: driver "a" already carries workload 5,
driver "b" carries none. -/
def c3State : LoopState :=
  { assignments := []
    warnings := []
    load := fun id => if id = "a" then 5 else 0
    tstamps := fun _ => some [] }

/-- Day-index lookup for the C3 witness. -/
def c3Dbd : Nat → List Driver := fun _ => [c3DriverA, c3DriverB]

/-- Trip fixture for the C3 witness. -/
def c3Trip : Trip :=
  { id := "t1", tripId := "T1", tripDate := 0, dayOfWeek := 0, plannedArrivalTime := some "10:00" }

/-- C3 witness: the priority-1 driver with workload 5 is selected over the
priority-2 driver with workload 0 — priority outranks load balancing — and
the selection is minimal under the lexicographic order. -/
theorem selection_minimal_witness :
    selectDriver c3State.load c3DriverA [c3DriverB] = c3DriverA ∧
    ((processTrip c3Dbd c3State c3Trip).assignments =
        c3State.assignments ++
          [mkAssignment c3Trip (selectDriver c3State.load c3DriverA [c3DriverB])] ∧
      selectDriver c3State.load c3DriverA [c3DriverB] ∈ c3DriverA :: [c3DriverB] ∧
      ∀ d ∈ c3DriverA :: [c3DriverB],
        keyLe c3State.load (selectDriver c3State.load c3DriverA [c3DriverB]) d) :=
  ⟨by decide, selection_minimal c3Dbd c3State c3Trip c3DriverA [c3DriverB] (by decide)⟩

/-- C1 (amended): if each input driver's pre-existing assignment
timestamps are pairwise at least `MIN_HOURS_BETWEEN_TRIPS` hours apart,
then after the run every driver's tracked timestamp list — the union of the
seeded pre-existing timestamps and the timestamps of the new assignments
made to that driver — is pairwise at least that far apart (a separation of
exactly 3 hours is permitted); on the main path the returned assignments
are exactly the engine state's assignments.  The engine never checks
pre-existing assignments against each other, so without the hypothesis the
union can violate the separation (see the counterexample). -/
theorem per_driver_separation (trips : List Trip) (drivers : List Driver)
    (eas : List ExistingAssignment)
    (h : ∀ d ∈ drivers, sepList (existingTsFor eas d.id)) :
    (∀ id, sepList (((runEngine trips drivers eas).tstamps id).getD [])) ∧
    (trips ≠ [] → drivers ≠ [] →
      (assignTripsToDrivers trips drivers eas).assignments =
        (runEngine trips drivers eas).assignments) := by
  constructor
  · have hseed : ∀ id, sepList (((seededState drivers eas).tstamps id).getD []) := by
      intro id
      unfold seededState
      rw [seedFold_tstamps eas (initState drivers) id]
      have hshape : (initState drivers).tstamps id =
          if (drivers.map Driver.id).contains id then some [] else none := rfl
      rw [hshape]
      by_cases hc : ((drivers.map Driver.id).contains id) = true
      · rw [if_pos hc]
        have hmem : id ∈ drivers.map Driver.id := by
          simpa using hc
        obtain ⟨d, hd, hid⟩ := List.mem_map.mp hmem
        have hsep := h d hd
        rw [hid] at hsep
        simpa [existingTsFor] using hsep
      · rw [if_neg hc]
        simp [sepList]
    unfold runEngine
    exact foldl_preserves_sep (driversByDay drivers) trips (seededState drivers eas) hseed
  · intro ht hd
    have h1' : ¬ trips.length = 0 := fun hc => ht (List.length_eq_zero.mp hc)
    have h2' : ¬ drivers.length = 0 := fun hc => hd (List.length_eq_zero.mp hc)
    simp only [assignTripsToDrivers, if_neg h1', if_neg h2']

/-- Driver fixture for C1. -/
def c1Driver : Driver :=
  { id := "d1", name := "dan", priority := some 2, availability := [{ dayOfWeek := 0 }] }

/-- Trip fixture for C1 (Sunday 20:00, far from the existing timestamps). -/
def c1Trip : Trip :=
  { id := "t1", tripId := "T1", tripDate := 0, dayOfWeek := 0, plannedArrivalTime := some "20:00" }

/-- Existing assignments only one hour apart for the same driver. -/
def c1Eas : List ExistingAssignment :=
  [{ driverId := "d1", tripDate := 0, plannedArrivalTime := some "10:00" },
   { driverId := "d1", tripDate := 0, plannedArrivalTime := some "11:00" }]

/-- Existing assignments exactly three hours apart (the boundary case the
claim permits). -/
def c1wEas : List ExistingAssignment :=
  [{ driverId := "d1", tripDate := 0, plannedArrivalTime := some "10:00" },
   { driverId := "d1", tripDate := 0, plannedArrivalTime := some "13:00" }]

/-- C1 counterexample: with two pre-existing assignments one hour apart for
the same driver, the union of that driver's pre-existing and new
timestamps after the run violates the 3-hour pairwise separation — the
engine never checks pre-existing assignments against each other, so the
claim fails as stated for arbitrary inputs. -/
theorem per_driver_separation_counterexample :
    ¬ sepList (((runEngine [c1Trip] [c1Driver] c1Eas).tstamps "d1").getD []) := by
  decide

/-- C1 witness: with pre-existing timestamps exactly 3 hours apart
(permitted) the final per-driver timestamp lists are pairwise separated. -/
theorem per_driver_separation_witness :
    (∀ id, sepList (((runEngine [c1Trip] [c1Driver] c1wEas).tstamps id).getD [])) ∧
    ([c1Trip] ≠ ([] : List Trip) → [c1Driver] ≠ ([] : List Driver) →
      (assignTripsToDrivers [c1Trip] [c1Driver] c1wEas).assignments =
        (runEngine [c1Trip] [c1Driver] c1wEas).assignments) :=
  per_driver_separation [c1Trip] [c1Driver] c1wEas (by decide)

theorem distribution_spec_main (trips : List Trip) (drivers : List Driver)
    (eas : List ExistingAssignment) (h1 : trips ≠ []) (h2 : drivers ≠ []) :
    (assignTripsToDrivers trips drivers eas).distribution.Perm
      ((drivers.map (fun d =>
        { driverId := d.id, driverName := d.name,
          tripCount :=
            combinedCount eas (assignTripsToDrivers trips drivers eas).assignments d.id :
          DriverDistribution })).filter (fun e => decide (0 < e.tripCount))) ∧
    (assignTripsToDrivers trips drivers eas).distribution.Pairwise
      (fun a b => b.tripCount ≤ a.tripCount) := by
  have h1' : ¬ trips.length = 0 := fun hc => h1 (List.length_eq_zero.mp hc)
  have h2' : ¬ drivers.length = 0 := fun hc => h2 (List.length_eq_zero.mp hc)
  have hres_dist : (assignTripsToDrivers trips drivers eas).distribution =
      stableSort distributionLt
        ((drivers.map (fun d =>
          { driverId := d.id, driverName := d.name,
            tripCount := (runEngine trips drivers eas).load d.id : DriverDistribution })).filter
          (fun e => decide (0 < e.tripCount))) := by
    simp only [assignTripsToDrivers, if_neg h1', if_neg h2']
  have hres_asg : (assignTripsToDrivers trips drivers eas).assignments =
      (runEngine trips drivers eas).assignments := by
    simp only [assignTripsToDrivers, if_neg h1', if_neg h2']
  obtain ⟨new, hnew, hload⟩ :=
    foldl_load_delta (driversByDay drivers) trips (seededState drivers eas)
  have hseedA : (seededState drivers eas).assignments = [] := by
    unfold seededState
    rw [(seedFold_accumulators eas (initState drivers)).1]
    rfl
  have hnew' : (runEngine trips drivers eas).assignments = new := by
    unfold runEngine
    rw [hnew, hseedA, List.nil_append]
  have hloadchar : ∀ d ∈ drivers, (runEngine trips drivers eas).load d.id =
      combinedCount eas (runEngine trips drivers eas).assignments d.id := by
    intro d hd
    have hc : ((drivers.map Driver.id).contains d.id) = true := by
      have hmem : d.id ∈ drivers.map Driver.id := List.mem_map.mpr ⟨d, hd, rfl⟩
      simpa using hmem
    have hshape : (initState drivers).tstamps d.id = some [] := by
      have hform : (initState drivers).tstamps d.id =
          if (drivers.map Driver.id).contains d.id then some [] else none := rfl
      rw [hform, if_pos hc]
    have hseedL : (seededState drivers eas).load d.id =
        (eas.filter (fun ea => ea.driverId == d.id)).length := by
      unfold seededState
      rw [seedFold_load eas (initState drivers) d.id, hshape]
      simp [initState]
    have hru : (runEngine trips drivers eas).load d.id =
        (seededState drivers eas).load d.id +
          (new.filter (fun a => a.driverId == d.id)).length :=
      hload d.id
    rw [hru, hseedL, hnew']
    rfl
  have hmap : (drivers.map (fun d =>
      { driverId := d.id, driverName := d.name,
        tripCount := (runEngine trips drivers eas).load d.id : DriverDistribution })) =
      (drivers.map (fun d =>
        { driverId := d.id, driverName := d.name,
          tripCount :=
            combinedCount eas (assignTripsToDrivers trips drivers eas).assignments d.id :
          DriverDistribution })) := by
    apply List.map_congr_left
    intro d hd
    rw [hloadchar d hd, hres_asg]
  constructor
  · rw [hres_dist, hmap]
    exact stableSort_perm distributionLt _
  · rw [hres_dist]
    refine List.Pairwise.imp ?_ (stableSort_pairwise ?_ ?_ _)
    · intro a b hab
      simp only [distributionLt] at hab
      have := of_decide_eq_false hab
      omega
    · intro a b hab
      simp only [distributionLt] at hab ⊢
      have := of_decide_eq_true hab
      exact decide_eq_false (by omega)
    · intro a b c hba hcb
      simp only [distributionLt] at hba hcb ⊢
      have hba' := of_decide_eq_false hba
      have hcb' := of_decide_eq_false hcb
      exact decide_eq_false (by omega)

/-- C8 (amended): whenever the trips list is nonempty the distribution is,
up to the descending stable sort, exactly one entry per input driver whose
combined count — pre-existing assignments plus new assignments of this run
for that driver's id — is positive, carrying that combined count, and it
is sorted by descending `tripCount`; with an empty drivers list this holds
vacuously (no input drivers, so both the distribution and the required
entry list are empty).  On the empty-trips path the function returns an
empty distribution even when a driver has pre-existing assignments, so the
claim fails for arbitrary inputs (see the counterexample). -/
theorem distribution_spec (trips : List Trip) (drivers : List Driver)
    (eas : List ExistingAssignment) (h1 : trips ≠ []) :
    (assignTripsToDrivers trips drivers eas).distribution.Perm
      ((drivers.map (fun d =>
        { driverId := d.id, driverName := d.name,
          tripCount :=
            combinedCount eas (assignTripsToDrivers trips drivers eas).assignments d.id :
          DriverDistribution })).filter (fun e => decide (0 < e.tripCount))) ∧
    (assignTripsToDrivers trips drivers eas).distribution.Pairwise
      (fun a b => b.tripCount ≤ a.tripCount) := by
  by_cases h2 : drivers = []
  · subst h2
    have h1' : ¬ trips.length = 0 := fun hc => h1 (List.length_eq_zero.mp hc)
    constructor
    · simp [assignTripsToDrivers, h1']
    · simp [assignTripsToDrivers, h1']
  · exact distribution_spec_main trips drivers eas h1 h2

/-- Driver fixture for C8. -/
def c8Driver : Driver :=
  { id := "d1", name := "dan", priority := some 2, availability := [{ dayOfWeek := 0 }] }

/-- Existing assignment fixture for C8. -/
def c8Ea : ExistingAssignment :=
  { driverId := "d1", tripDate := 0, plannedArrivalTime := some "10:00" }

/-- Trip fixture for the C8 witness. -/
def c8Trip : Trip :=
  { id := "t1", tripId := "T1", tripDate := 0, dayOfWeek := 0, plannedArrivalTime := some "15:00" }

/-- C8 counterexample: with an empty trips list, a driver with one
pre-existing assignment (combined count 1 ≥ 1) gets no distribution entry —
the empty-trips branch returns an empty distribution — refuting the claim
for arbitrary inputs. -/
theorem distribution_spec_counterexample :
    (assignTripsToDrivers [] [c8Driver] [c8Ea]).distribution = [] ∧
    combinedCount [c8Ea] (assignTripsToDrivers [] [c8Driver] [c8Ea]).assignments c8Driver.id
      = 1 := by
  decide

/-- C8 witness: one driver with one pre-existing and one new assignment —
the distribution holds exactly the drivers with positive combined count,
with the combined count, sorted descending. -/
theorem distribution_spec_witness :
    (assignTripsToDrivers [c8Trip] [c8Driver] [c8Ea]).distribution.Perm
      (([c8Driver].map (fun d =>
        { driverId := d.id, driverName := d.name,
          tripCount :=
            combinedCount [c8Ea] (assignTripsToDrivers [c8Trip] [c8Driver] [c8Ea]).assignments
              d.id :
          DriverDistribution })).filter (fun e => decide (0 < e.tripCount))) ∧
    (assignTripsToDrivers [c8Trip] [c8Driver] [c8Ea]).distribution.Pairwise
      (fun a b => b.tripCount ≤ a.tripCount) :=
  distribution_spec [c8Trip] [c8Driver] [c8Ea] (by decide)

end TripSched
